import Mathlib

/-!
Verification development for the UHF-CASSCF two-electron integral
transformation module (`mcscf/mc_ao2mo_uhf.py`).

Modelling conventions.

* Floating-point numbers are modelled by exact rationals `ℚ`; equalities
  "up to floating-point summation order" become exact equalities.
* A numpy array of extent `(a, b, ...)` is modelled by a total function
  `ℕ → ... → ℚ` that is zero outside its extents, together with the tuple
  of extents where a claim is about shapes (structures `T2`, `T3`, `T4`).
  The zero-guard (`mkBuf`, `T4.mk4`, ...) records the allocation extents of
  the source; out-of-range values are inaccessible in the source and are
  normalised to `0` here.
* External collaborators that are not part of this repository's sources
  (the C kernels of `pyscf.ao2mo._ao2mo`, `pyscf.lib.numpy_helper` and
  `libmcscf`) are either kept abstract (record `Ext`) or modelled from the
  spec; each such definition says so in its doc comment.
-/

/-- A dense matrix of extent `(rows, cols)`: the total function is zero
outside the extents. -/
def mkBuf (rows cols : ℕ) (f : ℕ → ℕ → ℚ) : ℕ → ℕ → ℚ :=
  fun i j => if i < rows ∧ j < cols then f i j else 0

/-- Row slice `buf[a:b]` of a matrix (numpy basic slicing): row `r` of the
slice is row `a + r` of `buf`, and the slice has `b - a` rows. -/
def rowSlice (a b : ℕ) (f : ℕ → ℕ → ℚ) : ℕ → ℕ → ℚ :=
  fun r c => if r < b - a then f (a + r) c else 0

/-- `numpy.hstack((m, m[:, :nocc]))` (source lines 32/43/70/122/223/224):
the matrix `m` (with `nmo` columns) extended on the right by its first
`nocc` columns. -/
def hstackOcc (m : ℕ → ℕ → ℚ) (nmo nocc : ℕ) : ℕ → ℕ → ℚ :=
  fun r c => if c < nmo then m r c else if c < nmo + nocc then m r (c - nmo) else 0

/-- Modelled from the spec: the Triangular Unpacker (§4.6), i.e. the
external C routine `NPdunpack_tril` of `pyscf.lib.numpy_helper` (not under
`src/`). A packed lower-triangular vector `x` (row-major, row `p` holding
entries `x[p*(p+1)/2 .. p*(p+1)/2 + p]`) is expanded to the full symmetric
square matrix. -/
def unpackTril (x : ℕ → ℚ) (p q : ℕ) : ℚ :=
  if q ≤ p then x (p * (p + 1) / 2 + q) else x (q * (q + 1) / 2 + p)

/-- Modelled from the spec: the Antisymmetrization Kernel's
"active-particle-core-virtual" formula (§4.5/§4.7), i.e. the external C
routine `MCSCFinplace_apcv_uhf` of `libmcscf` (not under `src/`), whose
formula the source records in the comment at line 202:
`japcp = avcp * 2 - acpv.transpose(0,2,1,3) - avcp.transpose(0,3,2,1)`.
For a fixed active orbital, `ppp j k l` is the full cube `(a j | k l)`;
the output entry at `(p, c, v)` (full, core, virtual = `ncore + v`) is
`2*(a p|c v) - (a c|p v) - (a v|c p)`. -/
def apcvKernel (ncore : ℕ) (ppp : ℕ → ℕ → ℕ → ℚ) (p c v : ℕ) : ℚ :=
  2 * ppp p c (ncore + v) - ppp c p (ncore + v) - ppp (ncore + v) c p

/-- Modelled from the spec: the Antisymmetrization Kernel's
"core-virtual/core-virtual" formula (§4.5/§4.7), i.e. the external C
routine `MCSCFinplace_cvcv_uhf` of `libmcscf` (not under `src/`), whose
formula the source records in the comment at line 257:
`jcvcv = cvcv * 2 - cvcv.transpose(2,1,0,3) - ccvv.transpose(0,2,1,3)`.
For a fixed core orbital `i`, `vcp v c p = (i, ncore+v | c, p)` and
`cpp c p q = (i, c | p, q)`; the output entry at `(a, j, b)` is
`2*(iA|jB) - (jA|iB) - (ij|AB)` with `A = ncore + a`, `B = ncore + b`. -/
def cvcvKernel (ncore : ℕ) (vcp cpp : ℕ → ℕ → ℕ → ℚ) (a j b : ℕ) : ℚ :=
  2 * vcp a j (ncore + b) - vcp b j (ncore + a) - cpp j (ncore + a) (ncore + b)

/-- The external AO-integral collaborators of `pyscf.ao2mo._ao2mo` (not
under `src/`), kept abstract.  `nr_e1_incore eri moji ijshape` is the
half-transformed tensor (row = occupied-MO pair index `ij`, column =
packed AO pair); `nr_e1range moji (off, len) ijshape` is the AO-pair-range
restricted first-index transform (row = AO pair within the range, column =
`ij`); `nr_e2 buf molk klshape` is the second-half transform of a buffer
(row index preserved, column = packed/flattened `kl` window). -/
structure ExtOps where
  nr_e1_incore : (ℕ → ℚ) → (ℕ → ℕ → ℚ) → ℕ × ℕ × ℕ × ℕ → ℕ → ℕ → ℚ
  nr_e1range : (ℕ → ℕ → ℚ) → ℕ × ℕ → ℕ × ℕ × ℕ × ℕ → ℕ → ℕ → ℚ
  nr_e2 : (ℕ → ℕ → ℚ) → (ℕ → ℕ → ℚ) → ℕ × ℕ × ℕ × ℕ → ℕ → ℕ → ℚ

/-- Modelled from the spec: the contract between the shell-range-restricted
first-index transform and the full in-core one (§4.4 step 3 / §6:
the range evaluator computes "the corresponding AO-pair slice of the
first-index-transformed block"): the row of the range output at within-range
pair `p` is column `off + p` of the in-core half-transform. -/
def RangeContract (ext : ExtOps) (eri : ℕ → ℚ) : Prop :=
  ∀ moji ijshape off len p ij,
    ext.nr_e1range moji (off, len) ijshape p ij =
      ext.nr_e1_incore eri moji ijshape ij (off + p)

/-- A 2-index output array with its allocation extents. -/
structure T2 where
  d : ℕ × ℕ
  v : ℕ → ℕ → ℚ

/-- A 3-index output array with its allocation extents. -/
structure T3 where
  d : ℕ × ℕ × ℕ
  v : ℕ → ℕ → ℕ → ℚ

/-- A 4-index output array with its allocation extents. -/
structure T4 where
  d : ℕ × ℕ × ℕ × ℕ
  v : ℕ → ℕ → ℕ → ℕ → ℚ

/-- Allocate a 2-index array of extent `(a, b)` with entries `f` (zero
outside the extents). -/
def T2.mk2 (a b : ℕ) (f : ℕ → ℕ → ℚ) : T2 :=
  ⟨(a, b), fun i j => if i < a ∧ j < b then f i j else 0⟩

/-- Allocate a 3-index array of extent `(a, b, c)` with entries `f`. -/
def T3.mk3 (a b c : ℕ) (f : ℕ → ℕ → ℕ → ℚ) : T3 :=
  ⟨(a, b, c), fun i j k => if i < a ∧ j < b ∧ k < c then f i j k else 0⟩

/-- Allocate a 4-index array of extent `(a, b, c, d)` with entries `f`. -/
def T4.mk4 (a b c d : ℕ) (f : ℕ → ℕ → ℕ → ℕ → ℚ) : T4 :=
  ⟨(a, b, c, d), fun i j k l => if i < a ∧ j < b ∧ k < c ∧ l < d then f i j k l else 0⟩

/-- Elementwise difference of two 3-index arrays of the same extents
(`jkcpp = jc_pp - kc_pp`, source lines 53-54/172-173). -/
def T3sub (x y : T3) : T3 :=
  ⟨x.d, fun i j k => x.v i j k - y.v i j k⟩

theorem T2mk_congr {a b : ℕ} {f g : ℕ → ℕ → ℚ}
    (h : ∀ i j, i < a → j < b → f i j = g i j) :
    T2.mk2 a b f = T2.mk2 a b g := by
  unfold T2.mk2
  congr 1
  funext i j
  by_cases hin : i < a ∧ j < b
  · rw [if_pos hin, if_pos hin]
    exact h i j hin.1 hin.2
  · rw [if_neg hin, if_neg hin]

theorem T3mk_congr {a b c : ℕ} {f g : ℕ → ℕ → ℕ → ℚ}
    (h : ∀ i j k, i < a → j < b → k < c → f i j k = g i j k) :
    T3.mk3 a b c f = T3.mk3 a b c g := by
  unfold T3.mk3
  congr 1
  funext i j k
  by_cases hin : i < a ∧ j < b ∧ k < c
  · rw [if_pos hin, if_pos hin]
    exact h i j k hin.1 hin.2.1 hin.2.2
  · rw [if_neg hin, if_neg hin]

theorem T4mk_congr {a b c d : ℕ} {f g : ℕ → ℕ → ℕ → ℕ → ℚ}
    (h : ∀ i j k l, i < a → j < b → k < c → l < d → f i j k l = g i j k l) :
    T4.mk4 a b c d f = T4.mk4 a b c d g := by
  unfold T4.mk4
  congr 1
  funext i j k l
  by_cases hin : i < a ∧ j < b ∧ k < c ∧ l < d
  · rw [if_pos hin, if_pos hin]
    exact h i j k l hin.1 hin.2.1 hin.2.2.1 hin.2.2.2
  · rw [if_neg hin, if_neg hin]

/-- Output record of the active-space driver `_trans_aapp_`
(source lines 179-215); fields in the order of the return statement. -/
structure AappOut where
  aapp : T4
  aaPP : T4
  appa : T4
  apPA : T4
  japcv : T4
  apCV : T4

/-- The active-space driver `_trans_aapp_` (source lines 179-215).
`mo0, mo1` are the two MO coefficient matrices of the driver call (note the
engines call it once with `(mo β, mo α)` and once with `(mo α, mo β)`);
`nc0, nc1` the corresponding core counts; `fload` the row-loader.  For each
active orbital `i` the row at occupied column `nc0 + i` is loaded, second-
half transformed with `klshape = (0, nmo, 0, nmo)` against `mo0` (same-spin
pass) and `mo1` (cross-spin pass), unpacked row-wise into the cube `ppp`,
and sliced into the output blocks; the same-spin pass also applies the
`apcv` antisymmetrization kernel. -/
def transAapp (ext : ExtOps) (mo0 mo1 : ℕ → ℕ → ℚ) (nc0 nc1 ncas nmo : ℕ)
    (fload : ℕ → ℕ → ℕ → ℚ) : AappOut :=
  { aapp := T4.mk4 ncas ncas nmo nmo (fun i j k l =>
      unpackTril (ext.nr_e2 (fload (nc0 + i)) mo0 (0, nmo, 0, nmo) (nc0 + j)) k l)
    aaPP := T4.mk4 ncas ncas nmo nmo (fun i j k l =>
      unpackTril (ext.nr_e2 (fload (nc0 + i)) mo1 (0, nmo, 0, nmo) (nc0 + j)) k l)
    appa := T4.mk4 ncas nmo nmo ncas (fun i j k l =>
      unpackTril (ext.nr_e2 (fload (nc0 + i)) mo0 (0, nmo, 0, nmo) j) k (nc0 + l))
    apPA := T4.mk4 ncas nmo nmo ncas (fun i j k l =>
      unpackTril (ext.nr_e2 (fload (nc0 + i)) mo1 (0, nmo, 0, nmo) j) k (nc1 + l))
    japcv := T4.mk4 ncas nmo nc0 (nmo - nc0) (fun i p c v =>
      apcvKernel nc0
        (fun j k l => unpackTril (ext.nr_e2 (fload (nc0 + i)) mo0 (0, nmo, 0, nmo) j) k l)
        p c v)
    apCV := T4.mk4 ncas nmo nc1 (nmo - nc1) (fun i p c v =>
      unpackTril (ext.nr_e2 (fload (nc0 + i)) mo1 (0, nmo, 0, nmo) p) c (nc1 + v)) }

/-- Output record of the core-virtual driver `_trans_cvcv_`
(source lines 217-264); fields in the order of the return statement. -/
structure CvcvOut where
  jc_pp : T3
  jc_PP : T2
  kc_pp : T3
  jcvcv : T4
  cvCV : T4

/-- The core-virtual driver `_trans_cvcv_` (source lines 217-264).
For each core orbital `i` its half-transformed row block is loaded and
second-half transformed against the occupied-extended matrices
`hstack((mo, mo[:, :nocc]))` with four different `klshape` windows;
`jc_PP` accumulates over all core orbitals, and the `cvcv`
antisymmetrization kernel combines the exchange pieces. -/
def transCvcv (ext : ExtOps) (mo0 mo1 : ℕ → ℕ → ℚ) (nc0 nc1 ncas nmo : ℕ)
    (fload : ℕ → ℕ → ℕ → ℚ) : CvcvOut :=
  { jc_pp := T3.mk3 nc0 nmo nmo (fun i p q =>
      unpackTril
        (ext.nr_e2 (rowSlice 0 nc0 (fload i)) (hstackOcc mo0 nmo (nc0 + ncas))
          (0, nmo, 0, nmo) i) p q)
    jc_PP := T2.mk2 nmo nmo (fun p q =>
      ∑ i ∈ Finset.range nc0,
        unpackTril
          (ext.nr_e2 (rowSlice i (i + 1) (fload i)) (hstackOcc mo1 nmo (nc1 + ncas))
            (0, nmo, 0, nmo) 0) p q)
    kc_pp := T3.mk3 nc0 nmo nmo (fun i p q =>
      if p < nc0 then
        unpackTril
          (ext.nr_e2 (rowSlice 0 nc0 (fload i)) (hstackOcc mo0 nmo (nc0 + ncas))
            (0, nmo, 0, nmo) p) i q
      else
        ext.nr_e2 (rowSlice nc0 nmo (fload i)) (hstackOcc mo0 nmo (nc0 + ncas))
          (nmo, nc0, 0, nmo) (p - nc0) (i * nmo + q))
    jcvcv := T4.mk4 nc0 (nmo - nc0) nc0 (nmo - nc0) (fun i a j b =>
      cvcvKernel nc0
        (fun v c p =>
          ext.nr_e2 (rowSlice nc0 nmo (fload i)) (hstackOcc mo0 nmo (nc0 + ncas))
            (nmo, nc0, 0, nmo) v (c * nmo + p))
        (fun c p q =>
          unpackTril
            (ext.nr_e2 (rowSlice 0 nc0 (fload i)) (hstackOcc mo0 nmo (nc0 + ncas))
              (0, nmo, 0, nmo) c) p q)
        a j b)
    cvCV := T4.mk4 nc0 (nmo - nc0) nc1 (nmo - nc1) (fun i a j b =>
      ext.nr_e2 (rowSlice nc0 nmo (fload i)) (hstackOcc mo1 nmo (nc1 + ncas))
        (nmo, nc1, nc1, nmo - nc1) a (j * (nmo - nc1) + b)) }

theorem transAapp_congr (ext : ExtOps) (mo0 mo1 : ℕ → ℕ → ℚ) (nc0 nc1 ncas nmo : ℕ)
    {f g : ℕ → ℕ → ℕ → ℚ} (h : ∀ id, id < nc0 + ncas → f id = g id) :
    transAapp ext mo0 mo1 nc0 nc1 ncas nmo f = transAapp ext mo0 mo1 nc0 nc1 ncas nmo g := by
  unfold transAapp
  congr 1
  · exact T4mk_congr (fun i j k l hi _ _ _ => by
      rw [h (nc0 + i) (by omega)])
  · exact T4mk_congr (fun i j k l hi _ _ _ => by
      rw [h (nc0 + i) (by omega)])
  · exact T4mk_congr (fun i j k l hi _ _ _ => by
      rw [h (nc0 + i) (by omega)])
  · exact T4mk_congr (fun i j k l hi _ _ _ => by
      rw [h (nc0 + i) (by omega)])
  · exact T4mk_congr (fun i p c v hi _ _ _ => by
      rw [h (nc0 + i) (by omega)])
  · exact T4mk_congr (fun i p c v hi _ _ _ => by
      rw [h (nc0 + i) (by omega)])

theorem transCvcv_congr (ext : ExtOps) (mo0 mo1 : ℕ → ℕ → ℚ) (nc0 nc1 ncas nmo : ℕ)
    {f g : ℕ → ℕ → ℕ → ℚ} (h : ∀ id, id < nc0 → f id = g id) :
    transCvcv ext mo0 mo1 nc0 nc1 ncas nmo f = transCvcv ext mo0 mo1 nc0 nc1 ncas nmo g := by
  unfold transCvcv
  congr 1
  · exact T3mk_congr (fun i p q hi _ _ => by rw [h i hi])
  · exact T2mk_congr (fun p q _ _ => by
      refine Finset.sum_congr rfl (fun i hi => ?_)
      rw [h i (Finset.mem_range.mp hi)])
  · exact T3mk_congr (fun i p q hi _ _ => by rw [h i hi])
  · exact T4mk_congr (fun i a j b hi _ _ _ => by rw [h i hi])
  · exact T4mk_congr (fun i a j b hi _ _ _ => by rw [h i hi])

/-- Number of packed AO pairs, `nao_pair = nao*(nao+1)//2`
(source lines 74/126). -/
def naoPairOf (nao : ℕ) : ℕ := nao * (nao + 1) / 2

/-- The in-core row-loader (source lines 36/47):
`load_buf = lambda bufid: erib[bufid*nmo : bufid*nmo+nmo].copy()` where
`erib = _ao2mo.nr_e1_incore_(eri_ao, moji, ijshape)`; the returned buffer
is an `(nmo, nao_pair)` copy of the `bufid`-th `nmo`-row block of the
half-transformed tensor. -/
def incoreLoader (ext : ExtOps) (eri : ℕ → ℚ) (moji : ℕ → ℕ → ℚ)
    (ijshape : ℕ × ℕ × ℕ × ℕ) (nmo naoPair id : ℕ) : ℕ → ℕ → ℚ :=
  mkBuf nmo naoPair (fun i j => ext.nr_e1_incore eri moji ijshape (id * nmo + i) j)

/-- One block of the swap store (source lines 98-101): at key
`(step, ic)` (with `ic < nocc`, the range of the write loop) the store
holds `pyscf.lib.transpose(buf[:, ic*nmo : ic*nmo+nmo])` where `buf` is
the range-evaluator output for the shell range with pair offset `off` and
pair count `len`. -/
def fswapEntry (ext : ExtOps) (moji : ℕ → ℕ → ℚ) (ijshape : ℕ × ℕ × ℕ × ℕ)
    (nmo nocc off len ic : ℕ) : ℕ → ℕ → ℚ :=
  fun r p => if ic < nocc then ext.nr_e1range moji (off, len) ijshape p (ic * nmo + r) else 0

/-- The read phase of the out-of-core row-loader (source lines 105-113):
for the requested column `id`, walk the shell-range steps in order and
copy each swap block into the corresponding column-offset range of the
assembled buffer.  `counts` is the list of per-step AO-pair counts
(third component of each `ish_ranges` entry), `off` the pair offset of
the current step. -/
def loadAssemble (ext : ExtOps) (moji : ℕ → ℕ → ℚ) (ijshape : ℕ × ℕ × ℕ × ℕ)
    (nmo nocc id : ℕ) : List ℕ → ℕ → ℕ → ℕ → ℚ
  | [], _, _, _ => 0
  | c :: cs, off, i, j =>
    if j < c then fswapEntry ext moji ijshape nmo nocc off c id i j
    else loadAssemble ext moji ijshape nmo nocc id cs (off + c) i (j - c)

/-- The out-of-core row-loader (source lines 105-113): an `(nmo, nao_pair)`
buffer assembled from the swap blocks of all shell-range steps. -/
def outcoreLoader (ext : ExtOps) (moji : ℕ → ℕ → ℚ) (ijshape : ℕ × ℕ × ℕ × ℕ)
    (nmo nocc naoPair : ℕ) (counts : List ℕ) (id : ℕ) : ℕ → ℕ → ℚ :=
  mkBuf nmo naoPair (fun i j => loadAssemble ext moji ijshape nmo nocc id counts 0 i j)

theorem loadAssemble_eq (ext : ExtOps) (eri : ℕ → ℚ) (moji : ℕ → ℕ → ℚ)
    (ijshape : ℕ × ℕ × ℕ × ℕ) (nmo nocc id : ℕ)
    (hc : RangeContract ext eri) (hid : id < nocc) :
    ∀ (counts : List ℕ) (off i j : ℕ), j < counts.sum →
      loadAssemble ext moji ijshape nmo nocc id counts off i j =
        ext.nr_e1_incore eri moji ijshape (id * nmo + i) (off + j) := by
  intro counts
  induction counts with
  | nil => intro off i j hj; simp at hj
  | cons c cs ih =>
    intro off i j hj
    unfold loadAssemble
    by_cases hjc : j < c
    · rw [if_pos hjc]
      unfold fswapEntry
      rw [if_pos hid, hc]
    · rw [if_neg hjc]
      have hjs : j - c < cs.sum := by
        simp only [List.sum_cons] at hj
        omega
      rw [ih (off + c) i (j - c) hjs]
      congr 1
      omega

/-- Rows below `nocc` of the out-of-core loader agree with the in-core
loader (the swap-store reassembly reproduces the half-transformed rows). -/
theorem outcoreLoader_eq (ext : ExtOps) (eri : ℕ → ℚ) (moji : ℕ → ℕ → ℚ)
    (ijshape : ℕ × ℕ × ℕ × ℕ) (nmo nocc naoPair : ℕ) (counts : List ℕ) (id : ℕ)
    (hc : RangeContract ext eri) (hid : id < nocc) (hsum : counts.sum = naoPair) :
    outcoreLoader ext moji ijshape nmo nocc naoPair counts id =
      incoreLoader ext eri moji ijshape nmo naoPair id := by
  unfold outcoreLoader incoreLoader mkBuf
  funext i j
  by_cases hin : i < nmo ∧ j < naoPair
  · rw [if_pos hin, if_pos hin]
    show loadAssemble ext moji ijshape nmo nocc id counts 0 i j = _
    rw [loadAssemble_eq ext eri moji ijshape nmo nocc id hc hid counts 0 i j (by omega)]
    congr 1
    omega
  · rw [if_neg hin, if_neg hin]

/-- The output tensor bundle ("ERIS"): the 18 named arrays returned by
`trans_e1_incore` / `trans_e1_outcore` (source lines 55-57 / 174-176),
in return order. -/
structure Eris where
  jkcpp : T3
  jkcPP : T3
  jC_pp : T2
  jc_PP : T2
  aapp : T4
  aaPP : T4
  AApp : T4
  AAPP : T4
  appa : T4
  apPA : T4
  APPA : T4
  Iapcv : T4
  IAPCV : T4
  apCV : T4
  APcv : T4
  Icvcv : T4
  ICVCV : T4
  cvCV : T4

/-- Assembly of the bundle from the four driver calls, shared verbatim by
both engines (source lines 37-57 and 114-176): `oAB`/`oCB` are the driver
outputs of the β-primary calls, `oA`/`oC` of the α-primary calls; the β
`cvCV` output is dropped (`[:4]` at lines 40/117). -/
def erisFrom (oAB : AappOut) (oCB : CvcvOut) (oA : AappOut) (oC : CvcvOut) : Eris :=
  { jkcpp := T3sub oC.jc_pp oC.kc_pp
    jkcPP := T3sub oCB.jc_pp oCB.kc_pp
    jC_pp := oCB.jc_PP
    jc_PP := oC.jc_PP
    aapp := oA.aapp
    aaPP := oA.aaPP
    AApp := oAB.aaPP
    AAPP := oAB.aapp
    appa := oA.appa
    apPA := oA.apPA
    APPA := oAB.appa
    Iapcv := oA.japcv
    IAPCV := oAB.japcv
    apCV := oA.apCV
    APcv := oAB.apCV
    Icvcv := oC.jcvcv
    ICVCV := oCB.jcvcv
    cvCV := oC.cvCV }

/-- The in-core transform engine `trans_e1_incore` (source lines 26-57):
per spin channel, the occupied-extended MO-pair matrix is built, the full
half-transform is materialised by the external `nr_e1_incore_`, and the
two drivers consume the slicing row-loader; the bundle is assembled from
the four driver outputs. -/
def trans_e1_incore (ext : ExtOps) (eri : ℕ → ℚ) (mo0 mo1 : ℕ → ℕ → ℚ)
    (nc0 nc1 ncas nao nmo : ℕ) : Eris :=
  erisFrom
    (transAapp ext mo1 mo0 nc1 nc0 ncas nmo
      (incoreLoader ext eri (hstackOcc mo1 nmo (nc1 + ncas))
        (nmo, nc1 + ncas, 0, nmo) nmo (naoPairOf nao)))
    (transCvcv ext mo1 mo0 nc1 nc0 ncas nmo
      (incoreLoader ext eri (hstackOcc mo1 nmo (nc1 + ncas))
        (nmo, nc1 + ncas, 0, nmo) nmo (naoPairOf nao)))
    (transAapp ext mo0 mo1 nc0 nc1 ncas nmo
      (incoreLoader ext eri (hstackOcc mo0 nmo (nc0 + ncas))
        (nmo, nc0 + ncas, 0, nmo) nmo (naoPairOf nao)))
    (transCvcv ext mo0 mo1 nc0 nc1 ncas nmo
      (incoreLoader ext eri (hstackOcc mo0 nmo (nc0 + ncas))
        (nmo, nc0 + ncas, 0, nmo) nmo (naoPairOf nao)))

/-- The out-of-core transform engine `trans_e1_outcore` (source lines
60-176): per spin channel, every shell range is evaluated by the external
`nr_e1range_`, its transposed occupied-column slices are written to the
swap store, and the two drivers consume the block-reassembling row-loader;
`countsB`/`countsA` are the per-step AO-pair counts of the β/α shell-range
partitions (`ish_ranges`, produced by the external shell partitioner). -/
def trans_e1_outcore (ext : ExtOps) (mo0 mo1 : ℕ → ℕ → ℚ)
    (nc0 nc1 ncas nao nmo : ℕ) (countsB countsA : List ℕ) : Eris :=
  erisFrom
    (transAapp ext mo1 mo0 nc1 nc0 ncas nmo
      (outcoreLoader ext (hstackOcc mo1 nmo (nc1 + ncas))
        (nmo, nc1 + ncas, 0, nmo) nmo (nc1 + ncas) (naoPairOf nao) countsB))
    (transCvcv ext mo1 mo0 nc1 nc0 ncas nmo
      (outcoreLoader ext (hstackOcc mo1 nmo (nc1 + ncas))
        (nmo, nc1 + ncas, 0, nmo) nmo (nc1 + ncas) (naoPairOf nao) countsB))
    (transAapp ext mo0 mo1 nc0 nc1 ncas nmo
      (outcoreLoader ext (hstackOcc mo0 nmo (nc0 + ncas))
        (nmo, nc0 + ncas, 0, nmo) nmo (nc0 + ncas) (naoPairOf nao) countsA))
    (transCvcv ext mo0 mo1 nc0 nc1 ncas nmo
      (outcoreLoader ext (hstackOcc mo0 nmo (nc0 + ncas))
        (nmo, nc0 + ncas, 0, nmo) nmo (nc0 + ncas) (naoPairOf nao) countsA))

/-- **C1** Cross-strategy equivalence: for every valid input (MO
coefficient matrices of both spins, core/active partition, and the same
AO two-electron integral tensor, related to the abstract external
evaluators by the shell-range slice contract), the whole 18-field bundle
produced by the out-of-core transform equals the one produced by the
in-core transform (exactly, since summation is modelled over `ℚ`), and
the row returned by the out-of-core row-loader for any valid column id
equals the corresponding `nmo`-row block of the in-core half-transformed
array, for both spin channels. -/
theorem trans_e1_cross_strategy_equiv
    (ext : ExtOps) (eri : ℕ → ℚ) (mo0 mo1 : ℕ → ℕ → ℚ)
    (nc0 nc1 ncas nao nmo : ℕ) (countsB countsA : List ℕ)
    (hc : RangeContract ext eri)
    (hB : countsB.sum = naoPairOf nao) (hA : countsA.sum = naoPairOf nao) :
    trans_e1_outcore ext mo0 mo1 nc0 nc1 ncas nao nmo countsB countsA =
      trans_e1_incore ext eri mo0 mo1 nc0 nc1 ncas nao nmo ∧
    (∀ id, id < nc1 + ncas →
      outcoreLoader ext (hstackOcc mo1 nmo (nc1 + ncas)) (nmo, nc1 + ncas, 0, nmo)
          nmo (nc1 + ncas) (naoPairOf nao) countsB id =
        incoreLoader ext eri (hstackOcc mo1 nmo (nc1 + ncas)) (nmo, nc1 + ncas, 0, nmo)
          nmo (naoPairOf nao) id) ∧
    (∀ id, id < nc0 + ncas →
      outcoreLoader ext (hstackOcc mo0 nmo (nc0 + ncas)) (nmo, nc0 + ncas, 0, nmo)
          nmo (nc0 + ncas) (naoPairOf nao) countsA id =
        incoreLoader ext eri (hstackOcc mo0 nmo (nc0 + ncas)) (nmo, nc0 + ncas, 0, nmo)
          nmo (naoPairOf nao) id) := by
  have hLB : ∀ id, id < nc1 + ncas →
      outcoreLoader ext (hstackOcc mo1 nmo (nc1 + ncas)) (nmo, nc1 + ncas, 0, nmo)
          nmo (nc1 + ncas) (naoPairOf nao) countsB id =
        incoreLoader ext eri (hstackOcc mo1 nmo (nc1 + ncas)) (nmo, nc1 + ncas, 0, nmo)
          nmo (naoPairOf nao) id :=
    fun id hid => outcoreLoader_eq ext eri _ _ nmo _ _ countsB id hc hid hB
  have hLA : ∀ id, id < nc0 + ncas →
      outcoreLoader ext (hstackOcc mo0 nmo (nc0 + ncas)) (nmo, nc0 + ncas, 0, nmo)
          nmo (nc0 + ncas) (naoPairOf nao) countsA id =
        incoreLoader ext eri (hstackOcc mo0 nmo (nc0 + ncas)) (nmo, nc0 + ncas, 0, nmo)
          nmo (naoPairOf nao) id :=
    fun id hid => outcoreLoader_eq ext eri _ _ nmo _ _ countsA id hc hid hA
  refine ⟨?_, hLB, hLA⟩
  unfold trans_e1_outcore trans_e1_incore
  rw [transAapp_congr ext mo1 mo0 nc1 nc0 ncas nmo hLB,
    transCvcv_congr ext mo1 mo0 nc1 nc0 ncas nmo (fun id hid => hLB id (by omega)),
    transAapp_congr ext mo0 mo1 nc0 nc1 ncas nmo hLA,
    transCvcv_congr ext mo0 mo1 nc0 nc1 ncas nmo (fun id hid => hLA id (by omega))]

/-- The packed AO tensor used by the witnesses. -/
def wEri : ℕ → ℚ := fun n => (n : ℚ) + 1

/-- Concrete external collaborators for witnesses: the in-core
half-transform reads the packed tensor at an explicit index, the range
evaluator is definitionally its column slice (so `RangeContract` holds by
`rfl`), and the second-half transform returns its buffer. -/
def wExt : ExtOps where
  nr_e1_incore := fun eri _ _ ij p => eri (ij * 7 + p)
  nr_e1range := fun _ r _ p ij => wEri (ij * 7 + (r.1 + p))
  nr_e2 := fun buf _ _ r c => buf r c

/-- Witness for `trans_e1_cross_strategy_equiv`: a concrete instantiation
(`nao = 2`, `nmo = 3`, partition counts `[1, 2]`) whose hypotheses hold
definitionally. -/
theorem trans_e1_cross_strategy_equiv_witness :
    trans_e1_outcore wExt (fun r c => (r : ℚ) + c) (fun r c => (r : ℚ) * c)
        1 0 1 2 3 [1, 2] [1, 2] =
      trans_e1_incore wExt wEri (fun r c => (r : ℚ) + c) (fun r c => (r : ℚ) * c)
        1 0 1 2 3 :=
  (trans_e1_cross_strategy_equiv wExt wEri (fun r c => (r : ℚ) + c)
    (fun r c => (r : ℚ) * c) 1 0 1 2 3 [1, 2] [1, 2]
    (fun _ _ _ _ _ _ => rfl) rfl rfl).1

/-- Spin-averaged core count (source line 299:
`ncore = (ncore[0] + ncore[1]) * .5`). -/
def ncoreAvg (nc0 nc1 : ℕ) : ℚ := ((nc0 : ℚ) + (nc1 : ℚ)) * (1 / 2)

/-- Out-of-core estimate of `_mem_usage` (source lines 300-302), in MB. -/
def memOutcore (nc0 nc1 ncas nmo : ℕ) : ℚ :=
  (ncoreAvg nc0 nc1 ^ 2 * ((nmo : ℚ) - ncoreAvg nc0 nc1) ^ 2 * 3
    + (ncas : ℚ) * (nmo : ℚ) * ncoreAvg nc0 nc1 * ((nmo : ℚ) - ncoreAvg nc0 nc1) * 4
    + ncoreAvg nc0 nc1 * (nmo : ℚ) ^ 2 * 3
    + (ncas : ℚ) ^ 2 * (nmo : ℚ) ^ 2 * 7
    + (nmo : ℚ) ^ 3 * 2) * 8 / 1000000

/-- In-core estimate of `_mem_usage` (source line 303), in MB. -/
def memIncore (nc0 nc1 ncas nmo : ℕ) : ℚ :=
  memOutcore nc0 nc1 ncas nmo + (nmo : ℚ) ^ 4 / 1000000
    + ncoreAvg nc0 nc1 * (nmo : ℚ) ^ 3 * 4 / 1000000

/-- The memory estimator `_mem_usage` (source lines 298-306): returns the
pair `(incore, outcore)` of estimates in MB. -/
def memUsage (nc0 nc1 ncas nmo : ℕ) : ℚ × ℚ :=
  (memIncore nc0 nc1 ncas nmo, memOutcore nc0 nc1 ncas nmo)

/-- The advisory print of `_mem_usage` (source lines 304-305): emitted
exactly when the outcore estimate exceeds 10000 MB. -/
def memAdvisory (nc0 nc1 ncas nmo : ℕ) : Bool :=
  if 10000 < memOutcore nc0 nc1 ncas nmo then true else false

theorem memOutcore_nonneg (nc0 nc1 ncas nmo : ℕ) (h0 : nc0 ≤ nmo) (h1 : nc1 ≤ nmo) :
    0 ≤ memOutcore nc0 nc1 ncas nmo := by
  have ha : (0 : ℚ) ≤ ncoreAvg nc0 nc1 := by unfold ncoreAvg; positivity
  have hb : (0 : ℚ) ≤ (nmo : ℚ) - ncoreAvg nc0 nc1 := by
    unfold ncoreAvg
    have e0 : (nc0 : ℚ) ≤ (nmo : ℚ) := by exact_mod_cast h0
    have e1 : (nc1 : ℚ) ≤ (nmo : ℚ) := by exact_mod_cast h1
    linarith
  have hc : (0 : ℚ) ≤ (ncas : ℚ) := Nat.cast_nonneg ncas
  have hm : (0 : ℚ) ≤ (nmo : ℚ) := Nat.cast_nonneg nmo
  unfold memOutcore
  set a := ncoreAvg nc0 nc1 with ha_def
  have t1 : (0 : ℚ) ≤ a ^ 2 * ((nmo : ℚ) - a) ^ 2 * 3 := by positivity
  have t2 : (0 : ℚ) ≤ (ncas : ℚ) * (nmo : ℚ) * a * ((nmo : ℚ) - a) * 4 := by
    have := mul_nonneg (mul_nonneg (mul_nonneg hc hm) ha) hb
    linarith
  have t3 : (0 : ℚ) ≤ a * (nmo : ℚ) ^ 2 * 3 := by
    have := mul_nonneg ha (pow_nonneg hm 2)
    linarith
  have t4 : (0 : ℚ) ≤ (ncas : ℚ) ^ 2 * (nmo : ℚ) ^ 2 * 7 := by positivity
  have t5 : (0 : ℚ) ≤ (nmo : ℚ) ^ 3 * 2 := by positivity
  have hsum : (0 : ℚ) ≤ a ^ 2 * ((nmo : ℚ) - a) ^ 2 * 3
      + (ncas : ℚ) * (nmo : ℚ) * a * ((nmo : ℚ) - a) * 4
      + a * (nmo : ℚ) ^ 2 * 3 + (ncas : ℚ) ^ 2 * (nmo : ℚ) ^ 2 * 7
      + (nmo : ℚ) ^ 3 * 2 := by linarith
  have h8 := mul_nonneg hsum (by norm_num : (0 : ℚ) ≤ 8)
  exact div_nonneg h8 (by norm_num)

/-- **C5** Memory estimator contract: for every orbital partition with
`ncore_i + ncas ≤ nmo`, `_mem_usage` returns a pair of non-negative
counts with `outcore ≤ incore` (it is a total pure function of the four
integers, so "raises no exception" and purity hold by construction), and
the virtual-address-space advisory is emitted exactly when the outcore
estimate exceeds the 10000 MB (~10 GB) threshold. -/
theorem mem_usage_contract (nc0 nc1 ncas nmo : ℕ)
    (h0 : nc0 + ncas ≤ nmo) (h1 : nc1 + ncas ≤ nmo) :
    0 ≤ (memUsage nc0 nc1 ncas nmo).1 ∧ 0 ≤ (memUsage nc0 nc1 ncas nmo).2 ∧
    (memUsage nc0 nc1 ncas nmo).2 ≤ (memUsage nc0 nc1 ncas nmo).1 ∧
    (memAdvisory nc0 nc1 ncas nmo = true ↔
      10000 < (memUsage nc0 nc1 ncas nmo).2) := by
  have hout : 0 ≤ memOutcore nc0 nc1 ncas nmo :=
    memOutcore_nonneg nc0 nc1 ncas nmo (by omega) (by omega)
  have ha : (0 : ℚ) ≤ ncoreAvg nc0 nc1 := by unfold ncoreAvg; positivity
  have hm : (0 : ℚ) ≤ (nmo : ℚ) := Nat.cast_nonneg nmo
  have hadd : memOutcore nc0 nc1 ncas nmo ≤ memIncore nc0 nc1 ncas nmo := by
    unfold memIncore
    have q1 : (0 : ℚ) ≤ (nmo : ℚ) ^ 4 / 1000000 := by positivity
    have q2 : (0 : ℚ) ≤ ncoreAvg nc0 nc1 * (nmo : ℚ) ^ 3 * 4 / 1000000 := by
      have := mul_nonneg (mul_nonneg ha (pow_nonneg hm 3)) (by norm_num : (0 : ℚ) ≤ 4)
      exact div_nonneg this (by norm_num)
    linarith
  refine ⟨le_trans hout hadd, hout, hadd, ?_⟩
  unfold memAdvisory
  by_cases h : 10000 < memOutcore nc0 nc1 ncas nmo
  · simp [h, memUsage]
  · simp [h, memUsage]

/-- Witness for `mem_usage_contract` at `ncore = (1,1)`, `ncas = 1`,
`nmo = 3`. -/
theorem mem_usage_contract_witness :
    0 ≤ (memUsage 1 1 1 3).1 ∧ 0 ≤ (memUsage 1 1 1 3).2 ∧
    (memUsage 1 1 1 3).2 ≤ (memUsage 1 1 1 3).1 ∧
    (memAdvisory 1 1 1 3 = true ↔ 10000 < (memUsage 1 1 1 3).2) :=
  mem_usage_contract 1 1 1 3 (by decide) (by decide)

/-- The three possible behaviours of the `_ERIS` constructor
(source lines 277-296). -/
inductive ErisBranch where
  | usesOutcore
  | usesIncore
  | raisesKeyError
deriving DecidableEq

/-- The strategy selection of `_ERIS.__init__` (source lines 277-296):
out-of-core when the method is forced to `"outcore"`, or when
`_mem_usage(...)[0] + nmo**4*2/1e6 > max_memory*.9`, or when
`casscf._scf._eri is None`; otherwise in-core when the method is
`"incore"` and the AO tensor is materialised; otherwise
`raise KeyError('update ao2mo')`. -/
def erisSelect (method : String) (nc0 nc1 ncas nmo : ℕ) (maxMemory : ℚ)
    (eriPresent : Bool) : ErisBranch :=
  if method = "outcore"
      ∨ maxMemory * (9 / 10) < (memUsage nc0 nc1 ncas nmo).1 + (nmo : ℚ) ^ 4 * 2 / 1000000
      ∨ eriPresent = false then
    ErisBranch.usesOutcore
  else if method = "incore" ∧ eriPresent = true then
    ErisBranch.usesIncore
  else
    ErisBranch.raisesKeyError

/-- Evaluation of the selector at the C3 counterexample input: the code's
own threshold test `0.026 + 0.02 > 0.1` is false, so the in-core branch is
taken. -/
theorem erisSelect_incore_eval :
    erisSelect "incore" 0 0 0 10 (1 / 9) true = ErisBranch.usesIncore := by
  have hcond : ¬ (("incore" : String) = "outcore"
      ∨ (1 / 9 : ℚ) * (9 / 10) < (memUsage 0 0 0 10).1 + ((10 : ℕ) : ℚ) ^ 4 * 2 / 1000000
      ∨ (true : Bool) = false) := by
    push_neg
    refine ⟨by decide, ?_, by decide⟩
    norm_num [memUsage, memIncore, memOutcore, ncoreAvg]
  unfold erisSelect
  rw [if_neg hcond, if_pos ⟨rfl, rfl⟩]

/-- **C3 counterexample** The claim's decision rule adds `2*nmo^4*8` bytes
(`nmo^4*16/1e6` MB) to the in-core estimate, but the code (line 278) adds
`nmo**4*2/1e6` MB, i.e. `2*nmo^4` bytes.  At `method = "incore"`,
`ncore = (0,0)`, `ncas = 0`, `nmo = 10`, `max_memory = 1/9` MB, AO tensor
present: the code's threshold test is `0.046 > 0.1`, false, so the
in-core path is taken, while the claim's rule (`0.186 > 0.1`) demands
out-of-core — the claimed equivalence fails at this input. -/
theorem eris_select_rule_cex :
    ¬ ((erisSelect "incore" 0 0 0 10 (1 / 9) true = ErisBranch.usesOutcore) ↔
      (("incore" : String) = "outcore"
        ∨ (1 / 9 : ℚ) * (9 / 10) < (memUsage 0 0 0 10).1 + (10 : ℚ) ^ 4 * 2 * 8 / 1000000
        ∨ (true : Bool) = false)) := by
  intro h
  have hrhs : (("incore" : String) = "outcore"
      ∨ (1 / 9 : ℚ) * (9 / 10) < (memUsage 0 0 0 10).1 + (10 : ℚ) ^ 4 * 2 * 8 / 1000000
      ∨ (true : Bool) = false) :=
    Or.inr (Or.inl (by norm_num [memUsage, memIncore, memOutcore, ncoreAvg]))
  have hout := h.mpr hrhs
  rw [erisSelect_incore_eval] at hout
  cases hout

/-- **C3 (amended)** Strategy selection rule: the `_ERIS` constructor uses
the out-of-core path exactly when the caller forces method `"outcore"`,
OR when the estimated in-core requirement plus `2*nmo^4` **bytes**
(`nmo**4*2/1e6` MB — not `2*nmo^4*8` bytes) exceeds 0.9 times the
caller's `max_memory` budget, OR when the AO integral store is not
available as a single in-memory array; and it uses the in-core path
exactly when none of these hold and the method is `"incore"`. -/
theorem eris_select_rule (method : String) (nc0 nc1 ncas nmo : ℕ)
    (maxMemory : ℚ) (eriPresent : Bool) :
    (erisSelect method nc0 nc1 ncas nmo maxMemory eriPresent = ErisBranch.usesOutcore ↔
      (method = "outcore"
        ∨ maxMemory * (9 / 10) < (memUsage nc0 nc1 ncas nmo).1 + (nmo : ℚ) ^ 4 * 2 / 1000000
        ∨ eriPresent = false)) ∧
    (erisSelect method nc0 nc1 ncas nmo maxMemory eriPresent = ErisBranch.usesIncore ↔
      (¬ (method = "outcore"
          ∨ maxMemory * (9 / 10) < (memUsage nc0 nc1 ncas nmo).1 + (nmo : ℚ) ^ 4 * 2 / 1000000
          ∨ eriPresent = false)
        ∧ method = "incore")) := by
  unfold erisSelect
  split_ifs with h1 h2
  · exact ⟨by simp [h1], by simp [h1]⟩
  · exact ⟨by simp [h1], ⟨fun _ => ⟨h1, h2.1⟩, fun _ => rfl⟩⟩
  · refine ⟨by simp [h1], ?_⟩
    simp only [h1, not_false_eq_true, true_and]
    constructor
    · intro hcon
      cases hcon
    · intro hmeth
      cases eriPresent with
      | false => exact absurd (Or.inr (Or.inr rfl)) h1
      | true => exact absurd ⟨hmeth, rfl⟩ h2

/-- Witness for `eris_select_rule`: the forced `"outcore"` method takes
the out-of-core branch. -/
theorem eris_select_rule_witness :
    erisSelect "outcore" 1 1 1 3 100 true = ErisBranch.usesOutcore :=
  (eris_select_rule "outcore" 1 1 1 3 100 true).1.mpr (Or.inl rfl)

/-- **C4 counterexample** When the caller requests the in-core strategy
but the AO integral tensor is `None`, the constructor does NOT fail: the
third disjunct of the first branch condition (line 279) is true, so the
out-of-core path is taken silently.  Concretely at `method = "incore"`,
`ncore = (1,1)`, `ncas = 1`, `nmo = 3`, `max_memory = 100`, AO tensor
absent, the selector yields the out-of-core branch, not the error
branch. -/
theorem eris_config_error_cex :
    erisSelect "incore" 1 1 1 3 100 false = ErisBranch.usesOutcore ∧
    ErisBranch.usesOutcore ≠ ErisBranch.raisesKeyError := by
  constructor
  · unfold erisSelect
    rw [if_pos (Or.inr (Or.inr rfl))]
  · decide

/-- **C4 (amended)** When the caller requests `"incore"` but no
materialized AO tensor exists, the constructor silently falls back to the
out-of-core path (no error); the error branch (`KeyError('update ao2mo')`)
is reached exactly when the out-of-core condition fails AND the method is
not `"incore"` (an unknown method name with adequate memory and a
materialized AO tensor). -/
theorem eris_config_error (method : String) (nc0 nc1 ncas nmo : ℕ)
    (maxMemory : ℚ) (eriPresent : Bool) :
    (eriPresent = false →
      erisSelect method nc0 nc1 ncas nmo maxMemory eriPresent = ErisBranch.usesOutcore) ∧
    (erisSelect method nc0 nc1 ncas nmo maxMemory eriPresent = ErisBranch.raisesKeyError ↔
      (¬ (method = "outcore"
          ∨ maxMemory * (9 / 10) < (memUsage nc0 nc1 ncas nmo).1 + (nmo : ℚ) ^ 4 * 2 / 1000000
          ∨ eriPresent = false)
        ∧ method ≠ "incore")) := by
  constructor
  · intro hp
    unfold erisSelect
    rw [if_pos (Or.inr (Or.inr hp))]
  · unfold erisSelect
    split_ifs with h1 h2
    · constructor
      · intro hcon
        cases hcon
      · intro hcon
        exact absurd h1 hcon.1
    · constructor
      · intro hcon
        cases hcon
      · intro hcon
        exact absurd h2.1 hcon.2
    · constructor
      · intro _
        refine ⟨h1, ?_⟩
        intro hmeth
        cases eriPresent with
        | false => exact h1 (Or.inr (Or.inr rfl))
        | true => exact h2 ⟨hmeth, rfl⟩
      · intro _
        rfl

/-- Witness for `eris_config_error`: requesting `"incore"` with no AO
tensor silently selects the out-of-core branch. -/
theorem eris_config_error_witness :
    erisSelect "incore" 0 0 0 5 7 false = ErisBranch.usesOutcore :=
  (eris_config_error "incore" 0 0 0 5 7 false).1 rfl

/-- The 8-fold index symmetry of a (fully expanded) two-electron integral
tensor: swap within the first pair, swap within the second pair, exchange
of the two pairs.  This is the defining property of the brute-force
`restore(1, ...)` tensors used by the reference check (source lines
360-365). -/
def EriSym (eri : ℕ → ℕ → ℕ → ℕ → ℚ) : Prop :=
  (∀ p q r s, eri p q r s = eri q p r s) ∧
  (∀ p q r s, eri p q r s = eri p q s r) ∧
  (∀ p q r s, eri p q r s = eri r s p q)

/-- The brute-force reference for `Iapcv` (source lines 388-390):
`Iapcv = eriaa[ncore:nocc, :, :ncore, ncore:] * 2
 - eriaa[:, ncore:, :ncore, ncore:nocc].transpose(3,0,2,1)
 - eriaa[:, :ncore, ncore:, ncore:nocc].transpose(3,0,1,2)`,
with the slice/transpose arithmetic resolved: entry `(a, p, c, v)` is
`2*eri(ncore+a, p, c, ncore+v) - eri(p, ncore+v, c, ncore+a)
 - eri(p, c, ncore+v, ncore+a)`. -/
def Iapcv_ref (ncore : ℕ) (eri : ℕ → ℕ → ℕ → ℕ → ℚ) (a p c v : ℕ) : ℚ :=
  2 * eri (ncore + a) p c (ncore + v)
    - eri p (ncore + v) c (ncore + a)
    - eri p c (ncore + v) (ncore + a)

/-- The brute-force reference for `Icvcv` (source lines 381-383):
`Icvcv = eriaa[:ncore, ncore:, :ncore, ncore:] * 2
 - eriaa[:ncore, :ncore, ncore:, ncore:].transpose(0,3,1,2)
 - eriaa[:ncore, ncore:, :ncore, ncore:].transpose(0,3,2,1)`,
with the slice/transpose arithmetic resolved: entry `(i, a, j, b)` is
`2*eri(i, ncore+a, j, ncore+b) - eri(i, j, ncore+b, ncore+a)
 - eri(i, ncore+b, j, ncore+a)`. -/
def Icvcv_ref (ncore : ℕ) (eri : ℕ → ℕ → ℕ → ℕ → ℚ) (i a j b : ℕ) : ℚ :=
  2 * eri i (ncore + a) j (ncore + b)
    - eri i j (ncore + b) (ncore + a)
    - eri i (ncore + b) j (ncore + a)

/-- **C2** Antisymmetrization formula for the active-particle-core-virtual
block: when the second-half transform and unpack chain produces the exact
MO cube of a symmetric two-electron tensor `eri` (hypothesis `hcube`), the
`Iapcv`/`japcv` block returned by the active-space driver equals, entry by
entry, `2*(ap|cv) - (ac|pv) - (av|cp)` — the linear combination with
coefficients exactly `(2, -1, -1)` — and equals the brute-force reference
`Iapcv_ref` of source lines 388-390. -/
theorem japcv_antisymmetrization (ext : ExtOps) (mo0 mo1 : ℕ → ℕ → ℚ)
    (nc0 nc1 ncas nmo : ℕ) (fload : ℕ → ℕ → ℕ → ℚ)
    (eri : ℕ → ℕ → ℕ → ℕ → ℚ) (hsym : EriSym eri)
    (hcube : ∀ i j k l,
      unpackTril (ext.nr_e2 (fload (nc0 + i)) mo0 (0, nmo, 0, nmo) j) k l =
        eri (nc0 + i) j k l)
    (i p c v : ℕ) (hi : i < ncas) (hp : p < nmo) (hc : c < nc0) (hv : v < nmo - nc0) :
    (transAapp ext mo0 mo1 nc0 nc1 ncas nmo fload).japcv.v i p c v =
      2 * eri (nc0 + i) p c (nc0 + v) - eri (nc0 + i) c p (nc0 + v)
        - eri (nc0 + i) (nc0 + v) c p ∧
    (transAapp ext mo0 mo1 nc0 nc1 ncas nmo fload).japcv.v i p c v =
      Iapcv_ref nc0 eri i p c v := by
  obtain ⟨h12, h34, hpq⟩ := hsym
  have hval : (transAapp ext mo0 mo1 nc0 nc1 ncas nmo fload).japcv.v i p c v =
      2 * eri (nc0 + i) p c (nc0 + v) - eri (nc0 + i) c p (nc0 + v)
        - eri (nc0 + i) (nc0 + v) c p := by
    simp only [transAapp, T4.mk4]
    rw [if_pos ⟨hi, hp, hc, hv⟩]
    simp only [apcvKernel]
    rw [hcube i p c (nc0 + v), hcube i c p (nc0 + v), hcube i (nc0 + v) c p]
  refine ⟨hval, ?_⟩
  rw [hval]
  unfold Iapcv_ref
  rw [hpq p (nc0 + v) c (nc0 + i), h12 c (nc0 + i) p (nc0 + v)]
  rw [hpq p c (nc0 + v) (nc0 + i), h12 (nc0 + v) (nc0 + i) p c,
    h34 (nc0 + i) (nc0 + v) p c]

/-- Constant two-electron tensor used by witnesses (trivially has the
8-fold symmetry). -/
def oneEri : ℕ → ℕ → ℕ → ℕ → ℚ := fun _ _ _ _ => 1

/-- External collaborators returning constant `1`, used by witnesses. -/
def oneExt : ExtOps where
  nr_e1_incore := fun _ _ _ _ _ => 1
  nr_e1range := fun _ _ _ _ _ => 1
  nr_e2 := fun _ _ _ _ _ => 1

/-- Witness for `japcv_antisymmetrization` at `ncore = 1`, `ncas = 1`,
`nmo = 2`, entry `(0,0,0,0)`, with constant collaborators. -/
theorem japcv_antisymmetrization_witness :
    (transAapp oneExt (fun _ _ => 1) (fun _ _ => 1) 1 1 1 2 (fun _ _ _ => 1)).japcv.v 0 0 0 0 =
      2 * oneEri (1 + 0) 0 0 (1 + 0) - oneEri (1 + 0) 0 0 (1 + 0)
        - oneEri (1 + 0) (1 + 0) 0 0 ∧
    (transAapp oneExt (fun _ _ => 1) (fun _ _ => 1) 1 1 1 2 (fun _ _ _ => 1)).japcv.v 0 0 0 0 =
      Iapcv_ref 1 oneEri 0 0 0 0 :=
  japcv_antisymmetrization oneExt (fun _ _ => 1) (fun _ _ => 1) 1 1 1 2 (fun _ _ _ => 1)
    oneEri ⟨fun _ _ _ _ => rfl, fun _ _ _ _ => rfl, fun _ _ _ _ => rfl⟩
    (fun i j k l => by simp [unpackTril, oneExt, oneEri])
    0 0 0 0 (by decide) (by decide) (by decide) (by decide)

/-- A symmetric rank-one factor used by the C8 counterexample. -/
def uuMat (p q : ℕ) : ℚ := if p + q = 1 then 2 else 1

/-- A concrete two-electron tensor with the full 8-fold symmetry
(`eriCex p q r s = uuMat p q * uuMat r s` with `uuMat` symmetric), on
which the `Icvcv` combination is not antisymmetric. -/
def eriCex : ℕ → ℕ → ℕ → ℕ → ℚ := fun p q r s => uuMat p q * uuMat r s

theorem eriCex_sym : EriSym eriCex :=
  ⟨fun p q r s => by unfold eriCex uuMat; rw [Nat.add_comm q p],
   fun p q r s => by unfold eriCex uuMat; rw [Nat.add_comm s r],
   fun p q r s => by unfold eriCex; rw [mul_comm]⟩

/-- **C8 counterexample** The `Icvcv` combination is NOT antisymmetric
under the simultaneous exchange of index pairs (1,3) and (2,4): on the
valid symmetric input `eriCex` with `ncore = 1`, `nmo = 2`, the diagonal
entry `(0,0,0,0)` — a fixed point of the exchange — equals `3`, while
antisymmetry would force it to equal its own negative, i.e. `0`. -/
theorem icvcv_antisym_cex :
    ¬ (Icvcv_ref 1 eriCex 0 0 0 0 = - Icvcv_ref 1 eriCex 0 0 0 0) := by
  norm_num [Icvcv_ref, eriCex, uuMat]

/-- **C8 (amended)** Exchange symmetry of `Icvcv`: for every valid input
(a symmetric two-electron tensor `eri` whose slices the second-half
transform reproduces, hypotheses `hvcp`/`hcpp`), the `Icvcv` block
returned by the core-virtual driver equals the brute-force reference of
source lines 381-383 and is **symmetric** (not antisymmetric) under
simultaneous exchange of its first with its third and its second with its
fourth index — the physical two-electron exchange symmetry. -/
theorem icvcv_exchange_symm (ext : ExtOps) (mo0 mo1 : ℕ → ℕ → ℚ)
    (nc0 nc1 ncas nmo : ℕ) (fload : ℕ → ℕ → ℕ → ℚ)
    (eri : ℕ → ℕ → ℕ → ℕ → ℚ) (hsym : EriSym eri)
    (hvcp : ∀ i v c p,
      ext.nr_e2 (rowSlice nc0 nmo (fload i)) (hstackOcc mo0 nmo (nc0 + ncas))
        (nmo, nc0, 0, nmo) v (c * nmo + p) = eri i (nc0 + v) c p)
    (hcpp : ∀ i c p q,
      unpackTril (ext.nr_e2 (rowSlice 0 nc0 (fload i)) (hstackOcc mo0 nmo (nc0 + ncas))
        (0, nmo, 0, nmo) c) p q = eri i c p q)
    (i a j b : ℕ) (hi : i < nc0) (ha : a < nmo - nc0) (hj : j < nc0) (hb : b < nmo - nc0) :
    (transCvcv ext mo0 mo1 nc0 nc1 ncas nmo fload).jcvcv.v i a j b =
      Icvcv_ref nc0 eri i a j b ∧
    (transCvcv ext mo0 mo1 nc0 nc1 ncas nmo fload).jcvcv.v i a j b =
      (transCvcv ext mo0 mo1 nc0 nc1 ncas nmo fload).jcvcv.v j b i a ∧
    Icvcv_ref nc0 eri i a j b = Icvcv_ref nc0 eri j b i a := by
  obtain ⟨h12, h34, hpq⟩ := hsym
  have hval : ∀ i' a' j' b', i' < nc0 → a' < nmo - nc0 → j' < nc0 → b' < nmo - nc0 →
      (transCvcv ext mo0 mo1 nc0 nc1 ncas nmo fload).jcvcv.v i' a' j' b' =
        Icvcv_ref nc0 eri i' a' j' b' := by
    intro i' a' j' b' hi' ha' hj' hb'
    simp only [transCvcv, T4.mk4]
    rw [if_pos ⟨hi', ha', hj', hb'⟩]
    simp only [cvcvKernel]
    rw [hvcp i' a' j' (nc0 + b'), hvcp i' b' j' (nc0 + a'),
      hcpp i' j' (nc0 + a') (nc0 + b')]
    unfold Icvcv_ref
    rw [h34 i' j' (nc0 + a') (nc0 + b')]
    ring
  have hsymref : Icvcv_ref nc0 eri i a j b = Icvcv_ref nc0 eri j b i a := by
    unfold Icvcv_ref
    rw [hpq j (nc0 + b) i (nc0 + a), h12 j i (nc0 + a) (nc0 + b),
      h34 i j (nc0 + a) (nc0 + b), hpq j (nc0 + a) i (nc0 + b)]
  refine ⟨hval i a j b hi ha hj hb, ?_, hsymref⟩
  rw [hval i a j b hi ha hj hb, hval j b i a hj hb hi ha, hsymref]

/-- Witness for `icvcv_exchange_symm` at `ncore = 1`, `nmo = 2`, entry
`(0,0,0,0)`, with constant collaborators. -/
theorem icvcv_exchange_symm_witness :
    (transCvcv oneExt (fun _ _ => 1) (fun _ _ => 1) 1 1 1 2 (fun _ _ _ => 1)).jcvcv.v 0 0 0 0 =
      Icvcv_ref 1 oneEri 0 0 0 0 ∧
    (transCvcv oneExt (fun _ _ => 1) (fun _ _ => 1) 1 1 1 2 (fun _ _ _ => 1)).jcvcv.v 0 0 0 0 =
      (transCvcv oneExt (fun _ _ => 1) (fun _ _ => 1) 1 1 1 2 (fun _ _ _ => 1)).jcvcv.v 0 0 0 0 ∧
    Icvcv_ref 1 oneEri 0 0 0 0 = Icvcv_ref 1 oneEri 0 0 0 0 :=
  icvcv_exchange_symm oneExt (fun _ _ => 1) (fun _ _ => 1) 1 1 1 2 (fun _ _ _ => 1)
    oneEri ⟨fun _ _ _ _ => rfl, fun _ _ _ _ => rfl, fun _ _ _ _ => rfl⟩
    (fun _ _ _ _ => rfl) (fun i c p q => by simp [unpackTril, oneExt, oneEri])
    0 0 0 0 (by decide) (by decide) (by decide) (by decide)

/-- Number of elements of a 4-index extent tuple. -/
def size4 (d : ℕ × ℕ × ℕ × ℕ) : ℕ := d.1 * d.2.1 * d.2.2.1 * d.2.2.2

/-- The shapes of all 18 bundle fields, as allocated by the drivers
(source lines 188-194, 226-233) and assembled by the engines; the
"virtual" extent of the `cv`-indexed blocks is `nmo - ncore` (all
non-core orbitals), not `nmo - nocc`. -/
def ErisDims (e : Eris) (nc0 nc1 ncas nmo : ℕ) : Prop :=
  e.jkcpp.d = (nc0, nmo, nmo) ∧
  e.jkcPP.d = (nc1, nmo, nmo) ∧
  e.jC_pp.d = (nmo, nmo) ∧
  e.jc_PP.d = (nmo, nmo) ∧
  e.aapp.d = (ncas, ncas, nmo, nmo) ∧
  e.aaPP.d = (ncas, ncas, nmo, nmo) ∧
  e.AApp.d = (ncas, ncas, nmo, nmo) ∧
  e.AAPP.d = (ncas, ncas, nmo, nmo) ∧
  e.appa.d = (ncas, nmo, nmo, ncas) ∧
  e.apPA.d = (ncas, nmo, nmo, ncas) ∧
  e.APPA.d = (ncas, nmo, nmo, ncas) ∧
  e.Iapcv.d = (ncas, nmo, nc0, nmo - nc0) ∧
  e.IAPCV.d = (ncas, nmo, nc1, nmo - nc1) ∧
  e.apCV.d = (ncas, nmo, nc1, nmo - nc1) ∧
  e.APcv.d = (ncas, nmo, nc0, nmo - nc0) ∧
  e.Icvcv.d = (nc0, nmo - nc0, nc0, nmo - nc0) ∧
  e.ICVCV.d = (nc1, nmo - nc1, nc1, nmo - nc1) ∧
  e.cvCV.d = (nc0, nmo - nc0, nc1, nmo - nc1)

/-- **C6 counterexample** The claim reads the §6 shape list with §3's
definition `nvirt = nmo - nocc`.  At `(ncore0, ncore1, ncas, nmo) =
(1, 1, 1, 3)` the code allocates `Icvcv` with extents
`(1, nmo - ncore, 1, nmo - ncore) = (1, 2, 1, 2)`, not
`(1, nmo - nocc, 1, nmo - nocc) = (1, 1, 1, 1)`. -/
theorem eris_shapes_cex :
    (trans_e1_incore oneExt (fun _ => 1) (fun _ _ => 1) (fun _ _ => 1) 1 1 1 2 3).Icvcv.d ≠
      (1, 3 - (1 + 1), 1, 3 - (1 + 1)) := by
  decide

/-- **C6 (amended)** Output shape invariants: for all
`(ncore0, ncore1, ncas, nmo)`, every field of the bundle returned by
either engine has the shape of the §6 list read with
`nvirt_i = nmo - ncore_i` (the non-core count; for the `Iapcv`-family and
`Icvcv`-family blocks §3's `nvirt = nmo - nocc` does not match the code);
the boundary case `ncore = 0`, `ncas = nmo` succeeds and its
virtual-indexed blocks are zero-sized (zero elements, through the zero
core extent). -/
theorem eris_shapes (ext : ExtOps) (eri : ℕ → ℚ) (mo0 mo1 : ℕ → ℕ → ℚ)
    (nc0 nc1 ncas nao nmo : ℕ) (countsB countsA : List ℕ) :
    ErisDims (trans_e1_incore ext eri mo0 mo1 nc0 nc1 ncas nao nmo) nc0 nc1 ncas nmo ∧
    ErisDims (trans_e1_outcore ext mo0 mo1 nc0 nc1 ncas nao nmo countsB countsA)
      nc0 nc1 ncas nmo ∧
    (nc0 = 0 →
      size4 (trans_e1_incore ext eri mo0 mo1 nc0 nc1 ncas nao nmo).Iapcv.d = 0 ∧
      size4 (trans_e1_incore ext eri mo0 mo1 nc0 nc1 ncas nao nmo).Icvcv.d = 0 ∧
      size4 (trans_e1_incore ext eri mo0 mo1 nc0 nc1 ncas nao nmo).cvCV.d = 0) := by
  refine ⟨⟨rfl, rfl, rfl, rfl, rfl, rfl, rfl, rfl, rfl, rfl, rfl, rfl, rfl, rfl, rfl,
    rfl, rfl, rfl⟩,
    ⟨rfl, rfl, rfl, rfl, rfl, rfl, rfl, rfl, rfl, rfl, rfl, rfl, rfl, rfl, rfl,
      rfl, rfl, rfl⟩, ?_⟩
  intro h
  subst h
  have h1 : (trans_e1_incore ext eri mo0 mo1 0 nc1 ncas nao nmo).Iapcv.d =
      (ncas, nmo, 0, nmo - 0) := rfl
  have h2 : (trans_e1_incore ext eri mo0 mo1 0 nc1 ncas nao nmo).Icvcv.d =
      (0, nmo - 0, 0, nmo - 0) := rfl
  have h3 : (trans_e1_incore ext eri mo0 mo1 0 nc1 ncas nao nmo).cvCV.d =
      (0, nmo - 0, nc1, nmo - nc1) := rfl
  rw [h1, h2, h3]
  unfold size4
  simp

/-- Witness for `eris_shapes`: at `ncore = (0,0)`, `ncas = nmo = 2` the
`Icvcv` block has zero elements. -/
theorem eris_shapes_witness :
    size4 (trans_e1_incore oneExt (fun _ => 1) (fun _ _ => 1) (fun _ _ => 1)
      0 0 2 2 2).Icvcv.d = 0 :=
  ((eris_shapes oneExt (fun _ => 1) (fun _ _ => 1) (fun _ _ => 1)
    0 0 2 2 2 [] []).2.2 rfl).2.1

/-- Row-loader invocations of one iteration of the `_trans_aapp_` outer
loop: `fload(ncore[0]+i)` is called at source line 196 (same-spin pass)
and again at line 207 (cross-spin pass) — twice, both for the single
occupied column `ncore[0]+i`. -/
def aappIterCalls (nc0 i : ℕ) : List ℕ := [nc0 + i, nc0 + i]

/-- All row-loader invocations of the `_trans_aapp_` outer loop
(`for i in range(ncas)`, source line 195), in loop order. -/
def aappTrace (nc0 ncas : ℕ) : List ℕ :=
  (List.range ncas).flatMap (aappIterCalls nc0)

/-- Row-loader invocations of one iteration of the `_trans_cvcv_` outer
loop: a single `fload(i)` at source line 235. -/
def cvcvIterCalls (i : ℕ) : List ℕ := [i]

/-- All row-loader invocations of the `_trans_cvcv_` outer loop
(`for i in range(ncore[0])`, source line 234), in loop order. -/
def cvcvTrace (nc0 : ℕ) : List ℕ :=
  (List.range nc0).flatMap cvcvIterCalls

/-- **C7** Driver loop bound and row-load discipline: the active-space
driver's outer loop runs exactly `ncas` times, and iteration `i` loads
only the single row at occupied column `ncore+i` (through two loader
invocations: same-spin and cross-spin pass); the set of rows it loads is
exactly `{ncore+i : i < ncas}`.  The core-virtual driver's outer loop
runs exactly `ncore` times, iteration `i` invoking the loader once for
core column `i`; the set of rows it loads is exactly `{i : i < ncore}`.
No row outside those index sets is ever loaded. -/
theorem driver_loop_bounds (nc0 ncas : ℕ) :
    (aappTrace nc0 ncas).length = 2 * ncas ∧
    (∀ i, i < ncas → aappIterCalls nc0 i = [nc0 + i, nc0 + i]) ∧
    (aappTrace nc0 ncas).toFinset = Finset.image (fun i => nc0 + i) (Finset.range ncas) ∧
    (cvcvTrace nc0).length = nc0 ∧
    (∀ i, i < nc0 → cvcvIterCalls i = [i]) ∧
    (cvcvTrace nc0).toFinset = Finset.range nc0 := by
  refine ⟨?_, fun i _ => rfl, ?_, ?_, fun i _ => rfl, ?_⟩
  · induction ncas with
    | zero => rfl
    | succ k ih =>
      unfold aappTrace at ih ⊢
      rw [List.range_succ, List.flatMap_append, List.length_append, ih]
      simp [aappIterCalls]
      omega
  · ext x
    simp only [List.mem_toFinset, aappTrace, List.mem_flatMap, List.mem_range,
      aappIterCalls, List.mem_cons, List.mem_singleton, Finset.mem_image,
      Finset.mem_range]
    constructor
    · rintro ⟨i, hi, h | h⟩
      · exact ⟨i, hi, h.symm⟩
      · simp at h
        exact ⟨i, hi, h.symm⟩
    · rintro ⟨i, hi, h⟩
      exact ⟨i, hi, Or.inl h.symm⟩
  · induction nc0 with
    | zero => rfl
    | succ k ih =>
      unfold cvcvTrace at ih ⊢
      rw [List.range_succ, List.flatMap_append, List.length_append, ih]
      rfl
  · ext x
    simp only [List.mem_toFinset, cvcvTrace, List.mem_flatMap, List.mem_range,
      cvcvIterCalls, List.mem_singleton, Finset.mem_range]
    constructor
    · rintro ⟨i, hi, h⟩
      omega
    · intro hx
      exact ⟨x, hx, rfl⟩

/-- Witness for `driver_loop_bounds`: the first active iteration with
`ncore = 1` loads only row `1 + 0`. -/
theorem driver_loop_bounds_witness :
    aappIterCalls 1 0 = [1 + 0, 1 + 0] :=
  (driver_loop_bounds 1 2).2.1 0 (by decide)

/-- Python exception values relevant to the step-1 loop: a `MemoryError`
carrying its message, or any other exception. -/
inductive PyErr where
  | memoryError (msg : String)
  | other (msg : String)
deriving DecidableEq

/-- One step-1 iteration body of the out-of-core engine (source lines
92-97 and 144-149): evaluate the shell range; on `MemoryError` log the
address-space warning and execute `raise MemoryError` — which raises a
**fresh** exception of the same class with the default (empty) message,
not the caught object; success and other exceptions pass through. -/
def step1Body (evalRange : ℕ → Except PyErr (ℕ → ℕ → ℚ)) (istep : ℕ) :
    Except PyErr (ℕ → ℕ → ℚ) :=
  match evalRange istep with
  | Except.ok b => Except.ok b
  | Except.error (PyErr.memoryError _) => Except.error (PyErr.memoryError "")
  | Except.error e => Except.error e

/-- The step-1 write loop (source lines 88-102): run the iteration bodies
in shell-range order, stopping at the first error (never retrying a range
and never re-entering the loop); on success return the list of range
buffers written to the swap store, on failure the error with no partial
result. -/
def step1Loop (evalRange : ℕ → Except PyErr (ℕ → ℕ → ℚ)) :
    ℕ → Except PyErr (List (ℕ → ℕ → ℚ))
  | 0 => Except.ok []
  | n + 1 =>
    match step1Loop evalRange n with
    | Except.error e => Except.error e
    | Except.ok bs =>
      match step1Body evalRange n with
      | Except.error e => Except.error e
      | Except.ok b => Except.ok (bs ++ [b])

/-- A range evaluator that fails with a `MemoryError` carrying a
message. -/
def evalBoom : ℕ → Except PyErr (ℕ → ℕ → ℚ) :=
  fun _ => Except.error (PyErr.memoryError "boom")

/-- **C9 counterexample** The out-of-memory condition is NOT re-raised
verbatim: `raise MemoryError` (lines 97/149) raises a fresh exception, so
when the range evaluator fails with `MemoryError("boom")` the engine
surfaces `MemoryError()` (empty message), not the original object. -/
theorem memerr_verbatim_cex :
    step1Loop evalBoom 1 = Except.error (PyErr.memoryError "") ∧
    Except.error (PyErr.memoryError "") ≠
      (Except.error (PyErr.memoryError "boom") : Except PyErr (List (ℕ → ℕ → ℚ))) := by
  refine ⟨rfl, ?_⟩
  intro h
  injection h with h1
  injection h1 with h2
  exact absurd h2 (by decide)

/-- **C9 (amended)** Allocation-failure propagation: if the first-index
transform of some shell range raises `MemoryError` (and the earlier
ranges succeeded), the out-of-core step-1 loop propagates a `MemoryError`
to the caller — a fresh exception of the same class (the original message
is not preserved); it never retries any range with a smaller block and
returns no partial result. -/
theorem memerr_propagation (evalRange : ℕ → Except PyErr (ℕ → ℕ → ℚ))
    (n k : ℕ) (m : String) (hk : k < n)
    (hfail : evalRange k = Except.error (PyErr.memoryError m))
    (hok : ∀ j, j < k → ∃ b, evalRange j = Except.ok b) :
    step1Loop evalRange n = Except.error (PyErr.memoryError "") := by
  have hpre : ∀ j, j ≤ k → ∃ bs, step1Loop evalRange j = Except.ok bs := by
    intro j
    induction j with
    | zero => exact fun _ => ⟨[], rfl⟩
    | succ t ih =>
      intro hj
      obtain ⟨bs, hbs⟩ := ih (by omega)
      obtain ⟨b, hb⟩ := hok t (by omega)
      refine ⟨bs ++ [b], ?_⟩
      unfold step1Loop
      rw [hbs]
      unfold step1Body
      rw [hb]
  have hkk : step1Loop evalRange (k + 1) = Except.error (PyErr.memoryError "") := by
    obtain ⟨bs, hbs⟩ := hpre k (le_refl k)
    unfold step1Loop
    rw [hbs]
    unfold step1Body
    rw [hfail]
  have hprop : ∀ d, step1Loop evalRange (k + 1 + d) = Except.error (PyErr.memoryError "") := by
    intro d
    induction d with
    | zero => exact hkk
    | succ t ih =>
      show step1Loop evalRange (k + 1 + t + 1) = _
      unfold step1Loop
      rw [ih]
  have hn : n = k + 1 + (n - (k + 1)) := by omega
  rw [hn]
  exact hprop (n - (k + 1))

/-- A range evaluator that succeeds on range 0 and fails with
`MemoryError("x")` on range 1. -/
def evalOnce : ℕ → Except PyErr (ℕ → ℕ → ℚ) :=
  fun j => if j = 1 then Except.error (PyErr.memoryError "x") else Except.ok (fun _ _ => 0)

/-- Witness for `memerr_propagation` with two ranges, the second of which
fails. -/
theorem memerr_propagation_witness :
    step1Loop evalOnce 2 = Except.error (PyErr.memoryError "") :=
  memerr_propagation evalOnce 2 1 "x" (by decide) rfl
    (fun j hj => ⟨fun _ _ => 0, by rw [Nat.lt_one_iff.mp hj]; rfl⟩)

/-- The in-core row-loader as a function of its backing store (source
lines 36/47): `load_buf = lambda bufid: erib[bufid*nmo:bufid*nmo+nmo].copy()`
— an `(nmo, nao_pair)` **copy**, disjoint from the store. -/
def loadCopy (store : ℕ → ℕ → ℚ) (nmo naoPair id : ℕ) : ℕ → ℕ → ℚ :=
  mkBuf nmo naoPair (fun r c => store (id * nmo + r) c)

/-- The in-place second-half overwrite of the first `ncore` rows of the
loaded buffer (source line 250:
`_ao2mo.nr_e2_(buf[:ncore], molk[0], klshape, buf[:ncore])` writes its
output back into those rows); rows at and above `ncore` keep their loaded
values. -/
def cvcvOverwrite (ext : ExtOps) (mo0 : ℕ → ℕ → ℚ) (nmo nocc0 nc0 : ℕ)
    (buf : ℕ → ℕ → ℚ) : ℕ → ℕ → ℚ :=
  fun r c =>
    if r < nc0 then
      ext.nr_e2 (rowSlice 0 nc0 buf) (hstackOcc mo0 nmo nocc0) (0, nmo, 0, nmo) r c
    else buf r c

/-- State-threaded model of the `_trans_cvcv_` outer loop's effect on the
backing half-transformed store (source lines 234-255).  With the source's
copying loader (`aliasing = false`, the `.copy()` of lines 36/47) the
in-place write of line 250 hits only the private buffer, so the store is
untouched; with a hypothetical aliasing loader (`aliasing = true`,
returning a view of the store) the same write would land in rows
`i*nmo .. i*nmo + ncore` of the store. -/
def cvcvStoreRun (aliasing : Bool) (ext : ExtOps) (mo0 : ℕ → ℕ → ℚ)
    (nmo naoPair nocc0 nc0 : ℕ) : ℕ → (ℕ → ℕ → ℚ) → (ℕ → ℕ → ℚ)
  | 0, s => s
  | i + 1, s =>
    if aliasing then
      fun r c =>
        if i * nmo ≤ r ∧ r < i * nmo + nmo then
          cvcvOverwrite ext mo0 nmo nocc0 nc0
            (loadCopy (cvcvStoreRun aliasing ext mo0 nmo naoPair nocc0 nc0 i s)
              nmo naoPair i)
            (r - i * nmo) c
        else cvcvStoreRun aliasing ext mo0 nmo naoPair nocc0 nc0 i s r c
    else cvcvStoreRun aliasing ext mo0 nmo naoPair nocc0 nc0 i s

/-- **C10** The in-core row-loader returns a fresh copy disjoint from the
half-transformed array: even though the core-virtual driver overwrites
the first `ncore` rows of the buffer it receives in place (third
conjunct: those rows hold the second-half-transform output after line
250), the backing store is never mutated by any number of driver
iterations, so loading any row before and after a driver invocation
yields equal contents. -/
theorem incore_loader_copy_frame (ext : ExtOps) (mo0 : ℕ → ℕ → ℚ)
    (nmo naoPair nocc0 nc0 n : ℕ) (s : ℕ → ℕ → ℚ) :
    cvcvStoreRun false ext mo0 nmo naoPair nocc0 nc0 n s = s ∧
    (∀ id, loadCopy (cvcvStoreRun false ext mo0 nmo naoPair nocc0 nc0 n s) nmo naoPair id =
      loadCopy s nmo naoPair id) ∧
    (∀ r c, r < nc0 →
      cvcvOverwrite ext mo0 nmo nocc0 nc0 (loadCopy s nmo naoPair 0) r c =
        ext.nr_e2 (rowSlice 0 nc0 (loadCopy s nmo naoPair 0))
          (hstackOcc mo0 nmo nocc0) (0, nmo, 0, nmo) r c) := by
  have hrun : cvcvStoreRun false ext mo0 nmo naoPair nocc0 nc0 n s = s := by
    induction n with
    | zero => rfl
    | succ t ih =>
      unfold cvcvStoreRun
      rw [if_neg (by decide)]
      exact ih
  refine ⟨hrun, fun id => by rw [hrun], fun r c hr => ?_⟩
  unfold cvcvOverwrite
  rw [if_pos hr]

/-- Witness for `incore_loader_copy_frame`: a concrete two-iteration run
leaves the concrete store unchanged. -/
theorem incore_loader_copy_frame_witness :
    cvcvStoreRun false oneExt (fun _ _ => 1) 2 3 2 1 2 (fun (r c : ℕ) => (r : ℚ) + c) =
      (fun (r c : ℕ) => (r : ℚ) + c) :=
  (incore_loader_copy_frame oneExt (fun _ _ => 1) 2 3 2 1 2 (fun (r c : ℕ) => (r : ℚ) + c)).1

/-- Contrast (not part of the spec's claims): with an aliasing loader the
line-250 write would corrupt the store — the copy in the loader is
load-bearing. -/
theorem aliasing_loader_mutates_demo :
    cvcvStoreRun true oneExt (fun _ _ => 1) 1 1 1 1 1 (fun _ _ => 2) 0 0 = 1 ∧
    ((2 : ℚ) ≠ 1) := by
  constructor
  · rfl
  · norm_num
